import Mathlib

/-!
Shallow embedding of the pose-representation converters of
pytransform3d (`pytransform3d/trajectories.py`): batch conversion between
position+quaternion poses and homogeneous matrices, the batch se(3)
exponential map with its degenerate pure-translation branch, and the
shape behaviour of the numpy entry points.

Real `float64` arithmetic is idealized as arithmetic on `ℝ`.  A batch with
one leading dimension is a `List` of instances; the numpy shape logic of the
entry points is modelled separately by `NDArray` (a shape together with
row-major flat data).
-/

open Real

/-- One exponential-coordinate instance: `(ω0, ω1, ω2, v0, v1, v2)`. -/
abbrev Stheta := Fin 6 → ℝ

/-- One pose `(x, y, z, qw, qx, qy, qz)` (position, scalar-first quaternion). -/
abbrev Pose7 := Fin 7 → ℝ

/-- A homogeneous transformation matrix. -/
abbrev Mat4 := Fin 4 → Fin 4 → ℝ

/-- A 3×3 rotation matrix. -/
abbrev Mat3 := Fin 3 → Fin 3 → ℝ

/-- Modelled from the spec: RotationMath's `norm_vectors` (the
`batch_rotations` module is not under src/), unit-length normalization of one
row, here a 4-component quaternion row. -/
noncomputable def norm_vectors (q : Fin 4 → ℝ) : Fin 4 → ℝ :=
  fun i => q i / Real.sqrt (q 0 ^ 2 + q 1 ^ 2 + q 2 ^ 2 + q 3 ^ 2)

/-- Modelled from the spec: RotationMath's `matrices_from_quaternions`
(scalar-first quaternion to rotation matrix), for one quaternion
`(w, x, y, z) = (q 0, q 1, q 2, q 3)`; the standard conversion formula. -/
noncomputable def matrices_from_quaternions (q : Fin 4 → ℝ) : Mat3 :=
  ![![1 - 2 * (q 2 ^ 2 + q 3 ^ 2), 2 * (q 1 * q 2 - q 3 * q 0), 2 * (q 1 * q 3 + q 2 * q 0)],
    ![2 * (q 1 * q 2 + q 3 * q 0), 1 - 2 * (q 1 ^ 2 + q 3 ^ 2), 2 * (q 2 * q 3 - q 1 * q 0)],
    ![2 * (q 1 * q 3 - q 2 * q 0), 2 * (q 2 * q 3 + q 1 * q 0), 1 - 2 * (q 1 ^ 2 + q 2 ^ 2)]]

/-- Modelled from the spec: RotationMath's `quaternions_from_matrices`
(rotation matrix to scalar-first quaternion, the inverse conversion), for one
matrix: the standard extraction that branches on the largest of
`trace`, `R 0 0`, `R 1 1`, `R 2 2` to keep the divisor away from zero. -/
noncomputable def quaternions_from_matrices (R : Mat3) : Fin 4 → ℝ :=
  if 0 < R 0 0 + R 1 1 + R 2 2 then
    ![Real.sqrt (R 0 0 + R 1 1 + R 2 2 + 1) / 2,
      (R 2 1 - R 1 2) / (2 * Real.sqrt (R 0 0 + R 1 1 + R 2 2 + 1)),
      (R 0 2 - R 2 0) / (2 * Real.sqrt (R 0 0 + R 1 1 + R 2 2 + 1)),
      (R 1 0 - R 0 1) / (2 * Real.sqrt (R 0 0 + R 1 1 + R 2 2 + 1))]
  else if R 1 1 ≤ R 0 0 ∧ R 2 2 ≤ R 0 0 then
    ![(R 2 1 - R 1 2) / (2 * Real.sqrt (1 + R 0 0 - R 1 1 - R 2 2)),
      Real.sqrt (1 + R 0 0 - R 1 1 - R 2 2) / 2,
      (R 0 1 + R 1 0) / (2 * Real.sqrt (1 + R 0 0 - R 1 1 - R 2 2)),
      (R 0 2 + R 2 0) / (2 * Real.sqrt (1 + R 0 0 - R 1 1 - R 2 2))]
  else if R 2 2 ≤ R 1 1 then
    ![(R 0 2 - R 2 0) / (2 * Real.sqrt (1 + R 1 1 - R 0 0 - R 2 2)),
      (R 0 1 + R 1 0) / (2 * Real.sqrt (1 + R 1 1 - R 0 0 - R 2 2)),
      Real.sqrt (1 + R 1 1 - R 0 0 - R 2 2) / 2,
      (R 1 2 + R 2 1) / (2 * Real.sqrt (1 + R 1 1 - R 0 0 - R 2 2))]
  else
    ![(R 1 0 - R 0 1) / (2 * Real.sqrt (1 + R 2 2 - R 0 0 - R 1 1)),
      (R 0 2 + R 2 0) / (2 * Real.sqrt (1 + R 2 2 - R 0 0 - R 1 1)),
      (R 1 2 + R 2 1) / (2 * Real.sqrt (1 + R 2 2 - R 0 0 - R 1 1)),
      Real.sqrt (1 + R 2 2 - R 0 0 - R 1 1) / 2]

/-- Skew-symmetric cross-product matrix of a 3-vector. -/
noncomputable def crossMat (a : Fin 3 → ℝ) : Mat3 :=
  ![![0, -a 2, a 1],
    ![a 2, 0, -a 0],
    ![-a 1, a 0, 0]]

/-- Modelled from the spec: RotationMath's `matrix_from_compact_axis_angles`
(Rodrigues' formula from a unit axis and an angle):
`R = I + sin θ · K + (1 − cos θ) · K²` with `K` the cross-product matrix. -/
noncomputable def matrix_from_compact_axis_angles (axis : Fin 3 → ℝ) (angle : ℝ) : Mat3 :=
  fun i j =>
    (if i = j then 1 else 0) + Real.sin angle * crossMat axis i j +
      (1 - Real.cos angle) *
        (crossMat axis i 0 * crossMat axis 0 j + crossMat axis i 1 * crossMat axis 1 j +
          crossMat axis i 2 * crossMat axis 2 j)

/-- Assemble a homogeneous matrix from a rotation block and a translation
column; the bottom row is written as the constant `(0, 0, 0, 1)`
(`H[:, 3, :3] = 0.0; H[:, 3, 3] = 1.0`). -/
noncomputable def assembleH (R : Mat3) (p : Fin 3 → ℝ) : Mat4 :=
  ![![R 0 0, R 0 1, R 0 2, p 0],
    ![R 1 0, R 1 1, R 1 2, p 1],
    ![R 2 0, R 2 1, R 2 2, p 2],
    ![0, 0, 0, 1]]

/-- `transforms_from_pqs(P, normalize_quaternions)` over a batch with one
leading dimension: per pose, translation column from the position part, the
constant bottom row, rotation block converted from the (optionally
normalized) quaternion part. -/
noncomputable def transforms_from_pqs (P : List Pose7) (normalize_quaternions : Bool) :
    List Mat4 :=
  P.map fun p =>
    let Q := if normalize_quaternions then norm_vectors ![p 3, p 4, p 5, p 6]
             else ![p 3, p 4, p 5, p 6]
    assembleH (matrices_from_quaternions Q) ![p 0, p 1, p 2]

/-- `pqs_from_transforms(H)` over a batch with one leading dimension:
position from the translation column `H[:, :3, 3]`, quaternion from the
rotation block `H[:, :3, :3]`. -/
noncomputable def pqs_from_transforms (H : List Mat4) : List Pose7 :=
  H.map fun M =>
    let q := quaternions_from_matrices fun i j => M i.castSucc j.castSucc
    ![M 0 3, M 1 3, M 2 3, q 0, q 1, q 2, q 3]

/-- The angular magnitude `t = ‖ω‖` of one exponential-coordinate instance
(`np.linalg.norm(Sthetas[..., :3], axis=-1)`). -/
noncomputable def normAng (x : Stheta) : ℝ :=
  Real.sqrt (x 0 ^ 2 + x 1 ^ 2 + x 2 ^ 2)

/-- The value one instance receives from the degenerate overwrite
`H[ind_only_translation, :3, :3] = np.eye(3)`;
`H[ind_only_translation, :3, 3] = Sthetas[ind_only_translation, 3:]`. -/
noncomputable def only_translation_entry (x : Stheta) : Mat4 :=
  assembleH (fun i j => if i = j then 1 else 0) ![x 3, x 4, x 5]

/-- The value a non-degenerate instance receives from the general branch of
`transforms_from_exponential_coordinates`: screw axis `Sthetas / t`, rotation
block from the compact axis-angle conversion, translation column from the
closed-form integral of a constant screw motion (with the same intermediate
products the code names). -/
noncomputable def general_entry (x : Stheta) : Mat4 :=
  let t := normAng x
  let screw_axes : Fin 6 → ℝ := fun j => x j / t
  let tms := t - Real.sin t
  let cm1 := Real.cos t - 1
  let o0 := screw_axes 0
  let o1 := screw_axes 1
  let o2 := screw_axes 2
  let v0 := screw_axes 3
  let v1 := screw_axes 4
  let v2 := screw_axes 5
  let o01tms := o0 * o1 * tms
  let o12tms := o1 * o2 * tms
  let o02tms := o0 * o2 * tms
  let o0cm1 := o0 * cm1
  let o1cm1 := o1 * cm1
  let o2cm1 := o2 * cm1
  let o00tms := o0 * o0 * tms
  let o11tms := o1 * o1 * tms
  let o22tms := o2 * o2 * tms
  assembleH (matrix_from_compact_axis_angles ![o0, o1, o2] t)
    ![-v0 * (o11tms + o22tms - t) + v1 * (o01tms + o2cm1) + v2 * (o02tms - o1cm1),
      v0 * (o01tms - o2cm1) - v1 * (o00tms + o22tms - t) + v2 * (o0cm1 + o12tms),
      v0 * (o02tms + o1cm1) - v1 * (o0cm1 - o12tms) - v2 * (o00tms + o11tms - t)]

/-- Modelled from the spec: `transform_from_exponential_coordinates` (the
single-instance conversion in the `transformations` module, not under src/),
to which a 1-D input is delegated; per the spec the single-instance behaviour
is conceptually identical to the batched one: exact branch on `θ == 0`. -/
noncomputable def transform_from_exponential_coordinates (x : Stheta) : Mat4 :=
  if normAng x = 0 then only_translation_entry x else general_entry x

/-- `transforms_from_exponential_coordinates(Sthetas)` over a batch with one
leading dimension.  Mirrors the masked computation of the code: when
`np.all(t == 0.0)` the general branch is skipped and every instance gets the
degenerate overwrite; otherwise the general formula is evaluated across the
batch (the placeholder `t[ind_only_translation] = 1.0` only feeds entries
that are overwritten) and the degenerate instances are then overwritten, so
each instance ends up with the result of its own branch. -/
noncomputable def transforms_from_exponential_coordinates (xs : List Stheta) : List Mat4 :=
  if ∀ x ∈ xs, normAng x = 0 then
    xs.map only_translation_entry
  else
    xs.map fun x => if normAng x = 0 then only_translation_entry x else general_entry x

/-- A numpy-style array: a shape and row-major flat data. -/
structure NDArray where
  shape : List ℕ
  data : List ℝ

/-- Row-major flattening of one 4×4 matrix. -/
def flat16 (M : Mat4) : List ℝ :=
  [M 0 0, M 0 1, M 0 2, M 0 3, M 1 0, M 1 1, M 1 2, M 1 3,
   M 2 0, M 2 1, M 2 2, M 2 3, M 3 0, M 3 1, M 3 2, M 3 3]

/-- Row-major flattening of one pose row. -/
def flat7 (p : Pose7) : List ℝ :=
  [p 0, p 1, p 2, p 3, p 4, p 5, p 6]

/-- The `n` consecutive 6-component instances of row-major flat data. -/
def chunk6 (d : List ℝ) (n : ℕ) : List Stheta :=
  (List.range n).map fun i => fun j => d.getD (6 * i + j.val) 0

/-- The `n` consecutive 7-component pose rows of row-major flat data. -/
def chunk7 (d : List ℝ) (n : ℕ) : List Pose7 :=
  (List.range n).map fun i => fun j => d.getD (7 * i + j.val) 0

/-- The `n` consecutive 4×4 matrices of row-major flat data. -/
def chunk16 (d : List ℝ) (n : ℕ) : List Mat4 :=
  (List.range n).map fun i => fun r c => d.getD (16 * i + 4 * r.val + c.val) 0

/-- Shape behaviour of `transforms_from_pqs`: the code indexes `P[:, :3]` and
allocates `np.empty((len(P), 4, 4))`, which requires exactly one leading
dimension, shape `(n, 7)` (its own docstring says shape `(n_steps, 7)`);
a 1-D single pose `(7,)` raises IndexError, higher arities fail to
broadcast. -/
noncomputable def transforms_from_pqs_nd (P : NDArray) (normalize_quaternions : Bool) :
    Except Unit NDArray :=
  if P.shape.length = 2 ∧ P.shape.getD 1 0 = 7 then
    .ok ⟨[P.shape.getD 0 0, 4, 4],
      ((transforms_from_pqs (chunk7 P.data (P.shape.getD 0 0)) normalize_quaternions).map
        flat16).flatten⟩
  else
    .error ()

/-- Shape behaviour of `pqs_from_transforms`: the code indexes `H[:, :3, 3]`
and allocates `np.empty((len(H), 7))`, which requires exactly one leading
dimension, shape `(n, 4, 4)`; a bare `(4, 4)` matrix raises IndexError and
two or more leading dimensions fail to broadcast. -/
noncomputable def pqs_from_transforms_nd (H : NDArray) : Except Unit NDArray :=
  if H.shape.length = 3 ∧ H.shape.getD 1 0 = 4 ∧ H.shape.getD 2 0 = 4 then
    .ok ⟨[H.shape.getD 0 0, 7],
      ((pqs_from_transforms (chunk16 H.data (H.shape.getD 0 0))).map flat7).flatten⟩
  else
    .error ()

/-- Shape behaviour of `transforms_from_exponential_coordinates`: a 1-D input
is delegated to the single-instance conversion; otherwise the whole
computation indexes with `...` over the leading axes
(`instances_shape = Sthetas.shape[:-1]`, `H = np.empty(instances_shape + (4, 4))`),
so any leading shape is accepted and preserved.  The batch is processed in
row-major instance order. -/
noncomputable def transforms_from_exponential_coordinates_nd (A : NDArray) :
    Except Unit NDArray :=
  if A.shape.length = 1 then
    if A.shape = [6] then
      .ok ⟨[4, 4], flat16 (transform_from_exponential_coordinates fun j => A.data.getD j.val 0)⟩
    else .error ()
  else if 2 ≤ A.shape.length ∧ A.shape.getLast? = some 6 then
    .ok ⟨A.shape.dropLast ++ [4, 4],
      ((transforms_from_exponential_coordinates (chunk6 A.data A.shape.dropLast.prod)).map
        flat16).flatten⟩
  else .error ()

/-- `plot_trajectory(ax, P, normalize_quaternions, ...)` up to the data it
hands to the external presenter.  The empty-trajectory guard
(`if P is None or len(P) == 0: raise ValueError(...)`) and the conversion
call are the code's; the presenter itself (`plot_utils`, not under src/) is
modelled from the spec, which states that it only renders the converted
matrices, so it is modelled as returning them. -/
noncomputable def plot_trajectory (P : Option (List Pose7)) (normalize_quaternions : Bool) :
    Except Unit (List Mat4) :=
  match P with
  | none => .error ()
  | some l =>
    if l.length = 0 then .error ()
    else .ok (transforms_from_pqs l normalize_quaternions)

/-- The spec's closed-form translation component
`t0 = −u0·(o1²s + o2²s − θ) + u1·(o0·o1·s + o2·c) + u2·(o0·o2·s − o1·c)`
with `s = θ − sin θ` and `c = cos θ − 1`. -/
noncomputable def spec_t0 (θ : ℝ) (o u : Fin 3 → ℝ) : ℝ :=
  -u 0 * ((o 1) ^ 2 * (θ - Real.sin θ) + (o 2) ^ 2 * (θ - Real.sin θ) - θ) +
    u 1 * (o 0 * o 1 * (θ - Real.sin θ) + o 2 * (Real.cos θ - 1)) +
    u 2 * (o 0 * o 2 * (θ - Real.sin θ) - o 1 * (Real.cos θ - 1))

/-- The spec's closed-form translation component
`t1 = u0·(o0·o1·s − o2·c) − u1·(o0²s + o2²s − θ) + u2·(o0·c + o1·o2·s)`. -/
noncomputable def spec_t1 (θ : ℝ) (o u : Fin 3 → ℝ) : ℝ :=
  u 0 * (o 0 * o 1 * (θ - Real.sin θ) - o 2 * (Real.cos θ - 1)) -
    u 1 * ((o 0) ^ 2 * (θ - Real.sin θ) + (o 2) ^ 2 * (θ - Real.sin θ) - θ) +
    u 2 * (o 0 * (Real.cos θ - 1) + o 1 * o 2 * (θ - Real.sin θ))

/-- The spec's closed-form translation component
`t2 = u0·(o0·o2·s + o1·c) − u1·(o0·c − o1·o2·s) − u2·(o0²s + o1²s − θ)`. -/
noncomputable def spec_t2 (θ : ℝ) (o u : Fin 3 → ℝ) : ℝ :=
  u 0 * (o 0 * o 2 * (θ - Real.sin θ) + o 1 * (Real.cos θ - 1)) -
    u 1 * (o 0 * (Real.cos θ - 1) - o 1 * o 2 * (θ - Real.sin θ)) -
    u 2 * ((o 0) ^ 2 * (θ - Real.sin θ) + (o 1) ^ 2 * (θ - Real.sin θ) - θ)

/-! ## Helper lemmas -/

theorem vec3_at0 {α : Type} (a b c : α) : ![a, b, c] 0 = a := rfl

theorem vec3_at1 {α : Type} (a b c : α) : ![a, b, c] 1 = b := rfl

theorem vec3_at2 {α : Type} (a b c : α) : ![a, b, c] 2 = c := rfl

theorem vec4_at0 {α : Type} (a b c d : α) : ![a, b, c, d] 0 = a := rfl

theorem vec4_at1 {α : Type} (a b c d : α) : ![a, b, c, d] 1 = b := rfl

theorem vec4_at2 {α : Type} (a b c d : α) : ![a, b, c, d] 2 = c := rfl

theorem vec4_at3 {α : Type} (a b c d : α) : ![a, b, c, d] 3 = d := rfl

theorem vec6_at0 {α : Type} (a b c d e f : α) : ![a, b, c, d, e, f] 0 = a := rfl

theorem vec6_at1 {α : Type} (a b c d e f : α) : ![a, b, c, d, e, f] 1 = b := rfl

theorem vec6_at2 {α : Type} (a b c d e f : α) : ![a, b, c, d, e, f] 2 = c := rfl

theorem vec6_at3 {α : Type} (a b c d e f : α) : ![a, b, c, d, e, f] 3 = d := rfl

theorem vec6_at4 {α : Type} (a b c d e f : α) : ![a, b, c, d, e, f] 4 = e := rfl

theorem vec6_at5 {α : Type} (a b c d e f : α) : ![a, b, c, d, e, f] 5 = f := rfl

theorem vec7_at0 {α : Type} (a b c d e f g : α) : ![a, b, c, d, e, f, g] 0 = a := rfl

theorem vec7_at1 {α : Type} (a b c d e f g : α) : ![a, b, c, d, e, f, g] 1 = b := rfl

theorem vec7_at2 {α : Type} (a b c d e f g : α) : ![a, b, c, d, e, f, g] 2 = c := rfl

theorem vec7_at3 {α : Type} (a b c d e f g : α) : ![a, b, c, d, e, f, g] 3 = d := rfl

theorem vec7_at4 {α : Type} (a b c d e f g : α) : ![a, b, c, d, e, f, g] 4 = e := rfl

theorem vec7_at5 {α : Type} (a b c d e f g : α) : ![a, b, c, d, e, f, g] 5 = f := rfl

theorem vec7_at6 {α : Type} (a b c d e f g : α) : ![a, b, c, d, e, f, g] 6 = g := rfl

theorem getD_map_of_lt {α β : Type} (f : α → β) (l : List α) (i : ℕ)
    (h : i < l.length) (d : α) (e : β) : (l.map f).getD i e = f (l.getD i d) := by
  rw [List.getD_eq_getElem?_getD, List.getD_eq_getElem?_getD, List.getElem?_map,
    List.getElem?_eq_getElem h]
  rfl

theorem getD_mem_of_lt {α : Type} (l : List α) (i : ℕ) (h : i < l.length) (d : α) :
    l.getD i d ∈ l := by
  rw [List.getD_eq_getElem?_getD, List.getElem?_eq_getElem h]
  exact List.getElem_mem h

theorem assembleH_bottom (R : Mat3) (p : Fin 3 → ℝ) : assembleH R p 3 = ![0, 0, 0, 1] := rfl

theorem assembleH_block (R : Mat3) (p : Fin 3 → ℝ) :
    (fun i j : Fin 3 => assembleH R p i.castSucc j.castSucc) = R := by
  funext i j
  fin_cases i <;> fin_cases j <;> rfl

theorem tfec_getD (xs : List Stheta) (i : ℕ) (h : i < xs.length) :
    (transforms_from_exponential_coordinates xs).getD i 0 =
      if normAng (xs.getD i 0) = 0 then only_translation_entry (xs.getD i 0)
      else general_entry (xs.getD i 0) := by
  unfold transforms_from_exponential_coordinates
  split_ifs with hall hx hx
  · rw [getD_map_of_lt _ _ _ h 0]
  · exact absurd (hall _ (getD_mem_of_lt xs i h 0)) hx
  · rw [getD_map_of_lt _ _ _ h 0, if_pos hx]
  · rw [getD_map_of_lt _ _ _ h 0, if_neg hx]

theorem transforms_from_pqs_getD (P : List Pose7) (b : Bool) (i : ℕ) (h : i < P.length) :
    (transforms_from_pqs P b).getD i 0 =
      assembleH
        (matrices_from_quaternions
          (if b then norm_vectors ![(P.getD i 0) 3, (P.getD i 0) 4, (P.getD i 0) 5, (P.getD i 0) 6]
           else ![(P.getD i 0) 3, (P.getD i 0) 4, (P.getD i 0) 5, (P.getD i 0) 6]))
        ![(P.getD i 0) 0, (P.getD i 0) 1, (P.getD i 0) 2] := by
  unfold transforms_from_pqs
  rw [getD_map_of_lt _ _ _ h 0]

theorem pqs_from_transforms_getD (H : List Mat4) (i : ℕ) (h : i < H.length) :
    (pqs_from_transforms H).getD i 0 =
      ![(H.getD i 0) 0 3, (H.getD i 0) 1 3, (H.getD i 0) 2 3,
        quaternions_from_matrices (fun a b => (H.getD i 0) a.castSucc b.castSucc) 0,
        quaternions_from_matrices (fun a b => (H.getD i 0) a.castSucc b.castSucc) 1,
        quaternions_from_matrices (fun a b => (H.getD i 0) a.castSucc b.castSucc) 2,
        quaternions_from_matrices (fun a b => (H.getD i 0) a.castSucc b.castSucc) 3] := by
  unfold pqs_from_transforms
  rw [getD_map_of_lt _ _ _ h 0]

theorem norm_vectors_of_unit (q : Fin 4 → ℝ)
    (h : q 0 ^ 2 + q 1 ^ 2 + q 2 ^ 2 + q 3 ^ 2 = 1) : norm_vectors q = q := by
  funext i
  simp [norm_vectors, h]

theorem quat_roundtrip (w x y z : ℝ) (h : w ^ 2 + x ^ 2 + y ^ 2 + z ^ 2 = 1) :
    (quaternions_from_matrices (matrices_from_quaternions ![w, x, y, z]) 0 = w ∧
     quaternions_from_matrices (matrices_from_quaternions ![w, x, y, z]) 1 = x ∧
     quaternions_from_matrices (matrices_from_quaternions ![w, x, y, z]) 2 = y ∧
     quaternions_from_matrices (matrices_from_quaternions ![w, x, y, z]) 3 = z) ∨
    (quaternions_from_matrices (matrices_from_quaternions ![w, x, y, z]) 0 = -w ∧
     quaternions_from_matrices (matrices_from_quaternions ![w, x, y, z]) 1 = -x ∧
     quaternions_from_matrices (matrices_from_quaternions ![w, x, y, z]) 2 = -y ∧
     quaternions_from_matrices (matrices_from_quaternions ![w, x, y, z]) 3 = -z) := by
  have e00 : matrices_from_quaternions ![w, x, y, z] 0 0 = 1 - 2 * (y ^ 2 + z ^ 2) := rfl
  have e01 : matrices_from_quaternions ![w, x, y, z] 0 1 = 2 * (x * y - z * w) := rfl
  have e02 : matrices_from_quaternions ![w, x, y, z] 0 2 = 2 * (x * z + y * w) := rfl
  have e10 : matrices_from_quaternions ![w, x, y, z] 1 0 = 2 * (x * y + z * w) := rfl
  have e11 : matrices_from_quaternions ![w, x, y, z] 1 1 = 1 - 2 * (x ^ 2 + z ^ 2) := rfl
  have e12 : matrices_from_quaternions ![w, x, y, z] 1 2 = 2 * (y * z - x * w) := rfl
  have e20 : matrices_from_quaternions ![w, x, y, z] 2 0 = 2 * (x * z - y * w) := rfl
  have e21 : matrices_from_quaternions ![w, x, y, z] 2 1 = 2 * (y * z + x * w) := rfl
  have e22 : matrices_from_quaternions ![w, x, y, z] 2 2 = 1 - 2 * (x ^ 2 + y ^ 2) := rfl
  unfold quaternions_from_matrices
  simp only [e00, e01, e02, e10, e11, e12, e20, e21, e22]
  split_ifs with h1 h2 h3
  · -- positive trace: 4w² − 1 > 0
    have hkey : 1 - 2 * (y ^ 2 + z ^ 2) + (1 - 2 * (x ^ 2 + z ^ 2)) + (1 - 2 * (x ^ 2 + y ^ 2))
        + 1 = (2 * w) ^ 2 := by linear_combination (-4 : ℝ) * h
    rw [hkey, Real.sqrt_sq_eq_abs]
    simp only [vec4_at0, vec4_at1, vec4_at2, vec4_at3]
    have hw2 : 1 / 4 < w ^ 2 := by linarith
    have hw0 : w ≠ 0 := by intro h0; rw [h0] at hw2; norm_num at hw2
    rcases hw0.lt_or_lt with hneg | hpos
    · right
      rw [abs_of_neg (by linarith : 2 * w < 0)]
      refine ⟨by ring, ?_, ?_, ?_⟩ <;> (field_simp; ring)
    · left
      rw [abs_of_pos (by linarith : 0 < 2 * w)]
      refine ⟨by ring, ?_, ?_, ?_⟩ <;> (field_simp; ring)
  · -- trace ≤ 0 and R00 largest diagonal entry: 4x² ≥ 1
    obtain ⟨h2a, h2b⟩ := h2
    have hkey : (1 : ℝ) + (1 - 2 * (y ^ 2 + z ^ 2)) - (1 - 2 * (x ^ 2 + z ^ 2))
        - (1 - 2 * (x ^ 2 + y ^ 2)) = (2 * x) ^ 2 := by ring
    rw [hkey, Real.sqrt_sq_eq_abs]
    simp only [vec4_at0, vec4_at1, vec4_at2, vec4_at3]
    have htr := not_lt.mp h1
    have hx2 : 1 / 4 ≤ x ^ 2 := by linarith
    have hx0 : x ≠ 0 := by intro h0; rw [h0] at hx2; norm_num at hx2
    rcases hx0.lt_or_lt with hneg | hpos
    · right
      rw [abs_of_neg (by linarith : 2 * x < 0)]
      refine ⟨?_, by ring, ?_, ?_⟩ <;> (field_simp; ring)
    · left
      rw [abs_of_pos (by linarith : 0 < 2 * x)]
      refine ⟨?_, by ring, ?_, ?_⟩ <;> (field_simp; ring)
  · -- trace ≤ 0, R00 not largest, R11 ≥ R22: 4y² ≥ 1
    have hkey : (1 : ℝ) + (1 - 2 * (x ^ 2 + z ^ 2)) - (1 - 2 * (y ^ 2 + z ^ 2))
        - (1 - 2 * (x ^ 2 + y ^ 2)) = (2 * y) ^ 2 := by ring
    rw [hkey, Real.sqrt_sq_eq_abs]
    simp only [vec4_at0, vec4_at1, vec4_at2, vec4_at3]
    have htr := not_lt.mp h1
    have hy2 : 1 / 4 ≤ y ^ 2 := by
      rcases not_and_or.mp h2 with hc | hc
    
      · have := not_le.mp hc
        linarith
      · have := not_le.mp hc
        linarith
    have hy0 : y ≠ 0 := by intro h0; rw [h0] at hy2; norm_num at hy2
    rcases hy0.lt_or_lt with hneg | hpos
    · right
      rw [abs_of_neg (by linarith : 2 * y < 0)]
      refine ⟨?_, ?_, by ring, ?_⟩ <;> (field_simp; ring)
    · left
      rw [abs_of_pos (by linarith : 0 < 2 * y)]
      refine ⟨?_, ?_, by ring, ?_⟩ <;> (field_simp; ring)
  · -- trace ≤ 0, R22 strictly largest: 4z² ≥ 1
    have hkey : (1 : ℝ) + (1 - 2 * (x ^ 2 + y ^ 2)) - (1 - 2 * (y ^ 2 + z ^ 2))
        - (1 - 2 * (x ^ 2 + z ^ 2)) = (2 * z) ^ 2 := by ring
    rw [hkey, Real.sqrt_sq_eq_abs]
    simp only [vec4_at0, vec4_at1, vec4_at2, vec4_at3]
    have htr := not_lt.mp h1
    have h3lt := not_le.mp h3
    have hz2 : 1 / 4 ≤ z ^ 2 := by
      rcases not_and_or.mp h2 with hc | hc
      · have := not_le.mp hc
        linarith
      · have := not_le.mp hc
        linarith
    have hz0 : z ≠ 0 := by intro h0; rw [h0] at hz2; norm_num at hz2
    rcases hz0.lt_or_lt with hneg | hpos
    · right
      rw [abs_of_neg (by linarith : 2 * z < 0)]
      refine ⟨?_, ?_, ?_, by ring⟩ <;> (field_simp; ring)
    · left
      rw [abs_of_pos (by linarith : 0 < 2 * z)]
      refine ⟨?_, ?_, ?_, by ring⟩ <;> (field_simp; ring)

/-! ## Claim theorems -/

/-- C1: for every instance of a batched input to
`transforms_from_exponential_coordinates` whose angular magnitude
θ = ‖ω‖ is positive, the translation column of the output matrix equals the
spec's closed-form expressions t0, t1, t2 computed with s = θ − sin θ,
c = cos θ − 1, unit axis ω/θ and linear term v/θ. -/
theorem translation_column_matches_spec_closed_form (xs : List Stheta) (i : ℕ)
    (hi : i < xs.length) (htheta : 0 < normAng (xs.getD i 0)) :
    ((transforms_from_exponential_coordinates xs).getD i 0) 0 3 =
      spec_t0 (normAng (xs.getD i 0))
        ![(xs.getD i 0) 0 / normAng (xs.getD i 0), (xs.getD i 0) 1 / normAng (xs.getD i 0),
          (xs.getD i 0) 2 / normAng (xs.getD i 0)]
        ![(xs.getD i 0) 3 / normAng (xs.getD i 0), (xs.getD i 0) 4 / normAng (xs.getD i 0),
          (xs.getD i 0) 5 / normAng (xs.getD i 0)] ∧
    ((transforms_from_exponential_coordinates xs).getD i 0) 1 3 =
      spec_t1 (normAng (xs.getD i 0))
        ![(xs.getD i 0) 0 / normAng (xs.getD i 0), (xs.getD i 0) 1 / normAng (xs.getD i 0),
          (xs.getD i 0) 2 / normAng (xs.getD i 0)]
        ![(xs.getD i 0) 3 / normAng (xs.getD i 0), (xs.getD i 0) 4 / normAng (xs.getD i 0),
          (xs.getD i 0) 5 / normAng (xs.getD i 0)] ∧
    ((transforms_from_exponential_coordinates xs).getD i 0) 2 3 =
      spec_t2 (normAng (xs.getD i 0))
        ![(xs.getD i 0) 0 / normAng (xs.getD i 0), (xs.getD i 0) 1 / normAng (xs.getD i 0),
          (xs.getD i 0) 2 / normAng (xs.getD i 0)]
        ![(xs.getD i 0) 3 / normAng (xs.getD i 0), (xs.getD i 0) 4 / normAng (xs.getD i 0),
          (xs.getD i 0) 5 / normAng (xs.getD i 0)] := by
  rw [tfec_getD xs i hi, if_neg htheta.ne']
  refine ⟨?_, ?_, ?_⟩ <;>
    simp only [general_entry, assembleH, spec_t0, spec_t1, spec_t2, vec3_at0, vec3_at1,
      vec3_at2, vec4_at0, vec4_at1, vec4_at2, vec4_at3] <;>
    ring

/-- C1 witness: the instance (0, 0, 1, 5, 7, 9) has θ = √1 > 0 and receives
the spec's closed-form translation column. -/
theorem translation_column_matches_spec_closed_form_witness :
    ((transforms_from_exponential_coordinates [![(0 : ℝ), 0, 1, 5, 7, 9]]).getD 0 0) 0 3 =
      spec_t0 (normAng ![(0 : ℝ), 0, 1, 5, 7, 9])
        ![0 / normAng ![(0 : ℝ), 0, 1, 5, 7, 9], 0 / normAng ![(0 : ℝ), 0, 1, 5, 7, 9],
          1 / normAng ![(0 : ℝ), 0, 1, 5, 7, 9]]
        ![5 / normAng ![(0 : ℝ), 0, 1, 5, 7, 9], 7 / normAng ![(0 : ℝ), 0, 1, 5, 7, 9],
          9 / normAng ![(0 : ℝ), 0, 1, 5, 7, 9]] ∧
    ((transforms_from_exponential_coordinates [![(0 : ℝ), 0, 1, 5, 7, 9]]).getD 0 0) 1 3 =
      spec_t1 (normAng ![(0 : ℝ), 0, 1, 5, 7, 9])
        ![0 / normAng ![(0 : ℝ), 0, 1, 5, 7, 9], 0 / normAng ![(0 : ℝ), 0, 1, 5, 7, 9],
          1 / normAng ![(0 : ℝ), 0, 1, 5, 7, 9]]
        ![5 / normAng ![(0 : ℝ), 0, 1, 5, 7, 9], 7 / normAng ![(0 : ℝ), 0, 1, 5, 7, 9],
          9 / normAng ![(0 : ℝ), 0, 1, 5, 7, 9]] ∧
    ((transforms_from_exponential_coordinates [![(0 : ℝ), 0, 1, 5, 7, 9]]).getD 0 0) 2 3 =
      spec_t2 (normAng ![(0 : ℝ), 0, 1, 5, 7, 9])
        ![0 / normAng ![(0 : ℝ), 0, 1, 5, 7, 9], 0 / normAng ![(0 : ℝ), 0, 1, 5, 7, 9],
          1 / normAng ![(0 : ℝ), 0, 1, 5, 7, 9]]
        ![5 / normAng ![(0 : ℝ), 0, 1, 5, 7, 9], 7 / normAng ![(0 : ℝ), 0, 1, 5, 7, 9],
          9 / normAng ![(0 : ℝ), 0, 1, 5, 7, 9]] :=
  translation_column_matches_spec_closed_form [![(0 : ℝ), 0, 1, 5, 7, 9]] 0 (by simp)
    ((by
      unfold normAng
      rw [vec6_at0, vec6_at1, vec6_at2]
      exact Real.sqrt_pos.mpr (by norm_num)) :
      0 < normAng ![(0 : ℝ), 0, 1, 5, 7, 9])

/-- C2: every instance of a batched input whose angular part has norm exactly
zero produces the identity as rotation block and the linear part v, taken
as-is, as translation column. -/
theorem degenerate_instance_identity_and_translation_v (xs : List Stheta) (i : ℕ)
    (hi : i < xs.length) (h0 : normAng (xs.getD i 0) = 0) :
    (∀ r c : Fin 3,
      ((transforms_from_exponential_coordinates xs).getD i 0) r.castSucc c.castSucc =
        if r = c then 1 else 0) ∧
    ((transforms_from_exponential_coordinates xs).getD i 0) 0 3 = (xs.getD i 0) 3 ∧
    ((transforms_from_exponential_coordinates xs).getD i 0) 1 3 = (xs.getD i 0) 4 ∧
    ((transforms_from_exponential_coordinates xs).getD i 0) 2 3 = (xs.getD i 0) 5 := by
  rw [tfec_getD xs i hi, if_pos h0]
  refine ⟨?_, rfl, rfl, rfl⟩
  intro r c
  exact congrFun (congrFun (assembleH_block _ _) r) c

/-- C2 witness: the spec's concrete scenario Stheta = (0, 0, 0, 1, 2, 3)
yields the identity rotation and translation (1, 2, 3). -/
theorem degenerate_instance_identity_and_translation_v_witness :
    (∀ r c : Fin 3,
      ((transforms_from_exponential_coordinates [![(0 : ℝ), 0, 0, 1, 2, 3]]).getD 0 0)
          r.castSucc c.castSucc =
        if r = c then 1 else 0) ∧
    ((transforms_from_exponential_coordinates [![(0 : ℝ), 0, 0, 1, 2, 3]]).getD 0 0) 0 3 = 1 ∧
    ((transforms_from_exponential_coordinates [![(0 : ℝ), 0, 0, 1, 2, 3]]).getD 0 0) 1 3 = 2 ∧
    ((transforms_from_exponential_coordinates [![(0 : ℝ), 0, 0, 1, 2, 3]]).getD 0 0) 2 3 = 3 :=
  degenerate_instance_identity_and_translation_v [![(0 : ℝ), 0, 0, 1, 2, 3]] 0 (by simp)
    ((by
      unfold normAng
      rw [vec6_at0, vec6_at1, vec6_at2]
      simp) :
      normAng ![(0 : ℝ), 0, 0, 1, 2, 3] = 0)

/-- C3: a batch is routed instance by instance: the output of
`transforms_from_exponential_coordinates` is, per instance, exactly the
degenerate-branch result when θ = 0 and exactly the general-branch result
when θ ≠ 0, merged into one output list with no cross-contamination. -/
theorem mixed_batch_independent_routing (xs : List Stheta) :
    transforms_from_exponential_coordinates xs =
      xs.map fun x =>
        if normAng x = 0 then only_translation_entry x else general_entry x := by
  unfold transforms_from_exponential_coordinates
  split_ifs with hall
  · refine List.map_congr_left fun a ha => ?_
    rw [if_pos (hall a ha)]
  · rfl

/-- C4: branch selection is exact equality θ == 0, not a tolerance test:
every instance with any nonzero angular magnitude, however small, is
processed by the general closed-form branch. -/
theorem nonzero_angle_uses_general_branch (xs : List Stheta) (i : ℕ)
    (hi : i < xs.length) (hne : normAng (xs.getD i 0) ≠ 0) :
    (transforms_from_exponential_coordinates xs).getD i 0 = general_entry (xs.getD i 0) := by
  rw [tfec_getD xs i hi, if_neg hne]

/-- C4 witness: an instance with the tiny angular magnitude 10⁻⁶ is still
processed by the general branch. -/
theorem nonzero_angle_uses_general_branch_witness :
    (transforms_from_exponential_coordinates [![(1 : ℝ) / 1000000, 0, 0, 2, 3, 4]]).getD 0 0 =
      general_entry ![(1 : ℝ) / 1000000, 0, 0, 2, 3, 4] :=
  nonzero_angle_uses_general_branch [![(1 : ℝ) / 1000000, 0, 0, 2, 3, 4]] 0 (by simp)
    ((by
      have hpos : (0 : ℝ) < normAng ![(1 : ℝ) / 1000000, 0, 0, 2, 3, 4] := by
        unfold normAng
        rw [vec6_at0, vec6_at1, vec6_at2]
        exact Real.sqrt_pos.mpr (by norm_num)
      exact hpos.ne') :
      normAng ![(1 : ℝ) / 1000000, 0, 0, 2, 3, 4] ≠ 0)

/-- C5: every homogeneous matrix produced by `transforms_from_pqs` and by
`transforms_from_exponential_coordinates` has bottom row exactly
(0, 0, 0, 1), for every input; the bottom row is always written, never read
from the input. -/
theorem bottom_row_always_fixed :
    (∀ (P : List Pose7) (b : Bool) (i : ℕ), i < P.length →
      ((transforms_from_pqs P b).getD i 0) 3 = ![0, 0, 0, 1]) ∧
    (∀ (xs : List Stheta) (i : ℕ), i < xs.length →
      ((transforms_from_exponential_coordinates xs).getD i 0) 3 = ![0, 0, 0, 1]) := by
  constructor
  · intro P b i hi
    rw [transforms_from_pqs_getD P b i hi]
    exact assembleH_bottom _ _
  · intro xs i hi
    rw [tfec_getD xs i hi]
    split_ifs with h0 <;> rfl

theorem getD_eq_getElem_of_lt {α : Type} (l : List α) (i : ℕ) (h : i < l.length) (d : α) :
    l.getD i d = l[i] := by
  rw [List.getD_eq_getElem?_getD, List.getElem?_eq_getElem h]
  rfl

/-- C6: for every batch of poses whose quaternion parts have unit norm,
converting to homogeneous matrices and back reproduces each position exactly
and each quaternion up to one global sign. -/
theorem roundtrip_position_exact_quaternion_up_to_sign (P : List Pose7)
    (hunit : ∀ p ∈ P, p 3 ^ 2 + p 4 ^ 2 + p 5 ^ 2 + p 6 ^ 2 = 1)
    (i : ℕ) (hi : i < P.length) :
    (((pqs_from_transforms (transforms_from_pqs P true)).getD i 0) 0 = (P.getD i 0) 0 ∧
     ((pqs_from_transforms (transforms_from_pqs P true)).getD i 0) 1 = (P.getD i 0) 1 ∧
     ((pqs_from_transforms (transforms_from_pqs P true)).getD i 0) 2 = (P.getD i 0) 2) ∧
    ((((pqs_from_transforms (transforms_from_pqs P true)).getD i 0) 3 = (P.getD i 0) 3 ∧
      ((pqs_from_transforms (transforms_from_pqs P true)).getD i 0) 4 = (P.getD i 0) 4 ∧
      ((pqs_from_transforms (transforms_from_pqs P true)).getD i 0) 5 = (P.getD i 0) 5 ∧
      ((pqs_from_transforms (transforms_from_pqs P true)).getD i 0) 6 = (P.getD i 0) 6) ∨
     (((pqs_from_transforms (transforms_from_pqs P true)).getD i 0) 3 = -(P.getD i 0) 3 ∧
      ((pqs_from_transforms (transforms_from_pqs P true)).getD i 0) 4 = -(P.getD i 0) 4 ∧
      ((pqs_from_transforms (transforms_from_pqs P true)).getD i 0) 5 = -(P.getD i 0) 5 ∧
      ((pqs_from_transforms (transforms_from_pqs P true)).getD i 0) 6 = -(P.getD i 0) 6)) := by
  have hlen : i < (transforms_from_pqs P true).length := by
    unfold transforms_from_pqs
    rw [List.length_map]
    exact hi
  have hq := hunit (P.getD i 0) (getD_mem_of_lt P i hi 0)
  have hp := pqs_from_transforms_getD (transforms_from_pqs P true) i hlen
  rw [transforms_from_pqs_getD P true i hi] at hp
  rw [if_pos rfl] at hp
  have hn : norm_vectors ![(P.getD i 0) 3, (P.getD i 0) 4, (P.getD i 0) 5, (P.getD i 0) 6]
      = ![(P.getD i 0) 3, (P.getD i 0) 4, (P.getD i 0) 5, (P.getD i 0) 6] := by
    apply norm_vectors_of_unit
    rw [vec4_at0, vec4_at1, vec4_at2, vec4_at3]
    exact hq
  rw [hn] at hp
  rw [assembleH_block
    (matrices_from_quaternions ![(P.getD i 0) 3, (P.getD i 0) 4, (P.getD i 0) 5, (P.getD i 0) 6])
    ![(P.getD i 0) 0, (P.getD i 0) 1, (P.getD i 0) 2]] at hp
  rw [hp]
  refine ⟨⟨?_, ?_, ?_⟩, ?_⟩
  · rw [vec7_at0]
    rfl
  · rw [vec7_at1]
    rfl
  · rw [vec7_at2]
    rfl
  · rcases quat_roundtrip ((P.getD i 0) 3) ((P.getD i 0) 4) ((P.getD i 0) 5) ((P.getD i 0) 6) hq
      with ⟨c0, c1, c2, c3⟩ | ⟨c0, c1, c2, c3⟩
    · left
      exact ⟨by rw [vec7_at3]; exact c0, by rw [vec7_at4]; exact c1,
        by rw [vec7_at5]; exact c2, by rw [vec7_at6]; exact c3⟩
    · right
      exact ⟨by rw [vec7_at3]; exact c0, by rw [vec7_at4]; exact c1,
        by rw [vec7_at5]; exact c2, by rw [vec7_at6]; exact c3⟩

/-- C6 witness: the unit-quaternion pose (1, 2, 3, 1, 0, 0, 0) round-trips:
position exactly, quaternion up to a global sign. -/
theorem roundtrip_position_exact_quaternion_up_to_sign_witness :
    (((pqs_from_transforms (transforms_from_pqs [![(1 : ℝ), 2, 3, 1, 0, 0, 0]] true)).getD 0 0)
        0 = 1 ∧
     ((pqs_from_transforms (transforms_from_pqs [![(1 : ℝ), 2, 3, 1, 0, 0, 0]] true)).getD 0 0)
        1 = 2 ∧
     ((pqs_from_transforms (transforms_from_pqs [![(1 : ℝ), 2, 3, 1, 0, 0, 0]] true)).getD 0 0)
        2 = 3) ∧
    ((((pqs_from_transforms (transforms_from_pqs [![(1 : ℝ), 2, 3, 1, 0, 0, 0]] true)).getD 0 0)
        3 = 1 ∧
      ((pqs_from_transforms (transforms_from_pqs [![(1 : ℝ), 2, 3, 1, 0, 0, 0]] true)).getD 0 0)
        4 = 0 ∧
      ((pqs_from_transforms (transforms_from_pqs [![(1 : ℝ), 2, 3, 1, 0, 0, 0]] true)).getD 0 0)
        5 = 0 ∧
      ((pqs_from_transforms (transforms_from_pqs [![(1 : ℝ), 2, 3, 1, 0, 0, 0]] true)).getD 0 0)
        6 = 0) ∨
     (((pqs_from_transforms (transforms_from_pqs [![(1 : ℝ), 2, 3, 1, 0, 0, 0]] true)).getD 0 0)
        3 = -1 ∧
      ((pqs_from_transforms (transforms_from_pqs [![(1 : ℝ), 2, 3, 1, 0, 0, 0]] true)).getD 0 0)
        4 = -0 ∧
      ((pqs_from_transforms (transforms_from_pqs [![(1 : ℝ), 2, 3, 1, 0, 0, 0]] true)).getD 0 0)
        5 = -0 ∧
      ((pqs_from_transforms (transforms_from_pqs [![(1 : ℝ), 2, 3, 1, 0, 0, 0]] true)).getD 0 0)
        6 = -0)) :=
  roundtrip_position_exact_quaternion_up_to_sign [![(1 : ℝ), 2, 3, 1, 0, 0, 0]]
    (by
      intro p hp
      rw [List.mem_singleton.mp hp, vec7_at3, vec7_at4, vec7_at5, vec7_at6]
      norm_num)
    0 (by simp)

/-- C7: for every leading instance shape S, an exponential-coordinates input
of shape S ++ [6] is accepted by `transforms_from_exponential_coordinates`
and the output is an array of shape S ++ [4, 4]: the leading shape is
preserved exactly (the empty S is the delegated single-instance path). -/
theorem exp_coords_output_preserves_leading_shape (S : List ℕ) (d : List ℝ) :
    ∃ B : NDArray,
      transforms_from_exponential_coordinates_nd ⟨S ++ [6], d⟩ = Except.ok B ∧
      B.shape = S ++ [4, 4] := by
  cases S with
  | nil => exact ⟨_, rfl, rfl⟩
  | cons a tail =>
    have h1 : ¬((⟨(a :: tail) ++ [6], d⟩ : NDArray).shape.length = 1) := by
      show ¬((a :: tail) ++ [6]).length = 1
      simp only [List.length_append, List.length_cons, List.length_singleton]
      omega
    have h2 : 2 ≤ (⟨(a :: tail) ++ [6], d⟩ : NDArray).shape.length ∧
        (⟨(a :: tail) ++ [6], d⟩ : NDArray).shape.getLast? = some 6 := by
      constructor
      · show 2 ≤ ((a :: tail) ++ [6]).length
        simp only [List.length_append, List.length_cons, List.length_singleton]
        omega
      · exact List.getLast?_concat _
    refine ⟨⟨((a :: tail) ++ [6]).dropLast ++ [4, 4],
      ((transforms_from_exponential_coordinates
        (chunk6 d ((a :: tail) ++ [6]).dropLast.prod)).map flat16).flatten⟩, ?_, ?_⟩
    · exact (if_neg h1).trans (if_pos h2)
    · show ((a :: tail) ++ [6]).dropLast ++ [4, 4] = (a :: tail) ++ [4, 4]
      rw [List.dropLast_concat]

/-- C8 (amended): `transforms_from_pqs` accepts exactly one leading dimension,
shape (n, 7), producing shape (n, 4, 4), and rejects a bare (7,) single pose;
`pqs_from_transforms` accepts exactly one leading dimension, shape (n, 4, 4),
producing shape (n, 7), and rejects both a bare (4, 4) matrix and two leading
dimensions. -/
theorem pose_matrix_conversion_shape_requirements (n : ℕ) (d : List ℝ) (b : Bool) (a c : ℕ) :
    (∃ A : NDArray,
      transforms_from_pqs_nd ⟨[n, 7], d⟩ b = Except.ok A ∧ A.shape = [n, 4, 4]) ∧
    (∃ B : NDArray,
      pqs_from_transforms_nd ⟨[n, 4, 4], d⟩ = Except.ok B ∧ B.shape = [n, 7]) ∧
    transforms_from_pqs_nd ⟨[7], d⟩ b = Except.error () ∧
    pqs_from_transforms_nd ⟨[4, 4], d⟩ = Except.error () ∧
    pqs_from_transforms_nd ⟨[a, c, 4, 4], d⟩ = Except.error () := by
  refine ⟨⟨⟨[n, 4, 4], ((transforms_from_pqs (chunk7 d n) b).map flat16).flatten⟩, ?_, rfl⟩,
    ⟨⟨[n, 7], ((pqs_from_transforms (chunk16 d n)).map flat7).flatten⟩, ?_, rfl⟩, ?_, ?_, ?_⟩
  · exact if_pos ⟨rfl, rfl⟩
  · exact if_pos ⟨rfl, rfl, rfl⟩
  · exact if_neg fun hcon => by simp at hcon
  · exact if_neg fun hcon => by simp at hcon
  · exact if_neg fun hcon => by simp at hcon

/-- C8 counterexample: the claim fails on the code: a single pose of shape
(7,) is rejected by `transforms_from_pqs` (its indexing requires shape
(n_steps, 7)), and a single homogeneous matrix of shape (4, 4) — a leading
batch shape with zero dimensions — is rejected by `pqs_from_transforms`. -/
theorem single_pose_and_single_matrix_rejected :
    transforms_from_pqs_nd ⟨[7], [1, 0, 0, 0, 0, 0, 0]⟩ true = Except.error () ∧
    pqs_from_transforms_nd ⟨[4, 4], [1, 0, 0, 0, 0, 1, 0, 0, 0, 0, 1, 0, 0, 0, 0, 1]⟩ =
      Except.error () := by
  constructor
  · unfold transforms_from_pqs_nd
    rw [if_neg (by decide)]
  · unfold pqs_from_transforms_nd
    rw [if_neg (by decide)]

/-- C9: `plot_trajectory` raises an error precisely when the supplied
trajectory is absent (None) or contains zero elements; any nonempty
trajectory is converted and returned without error, whatever its numeric
values. -/
theorem plot_trajectory_rejects_iff_empty (P : Option (List Pose7)) (b : Bool) :
    plot_trajectory P b = Except.error () ↔ (P = none ∨ P = some []) := by
  cases P with
  | none => simp [plot_trajectory]
  | some l =>
    cases l with
    | nil => simp [plot_trajectory]
    | cons p rest => simp [plot_trajectory]

/-- C10: the output of `pqs_from_transforms` depends only on the top three
rows of each input matrix: two equally long inputs agreeing on every entry of
rows 0, 1, 2 but with arbitrary bottom rows produce identical pose batches. -/
theorem pqs_from_transforms_ignores_bottom_row (H1 H2 : List Mat4)
    (hlen : H1.length = H2.length)
    (hagree : ∀ i : ℕ, i < H1.length → ∀ (r c : Fin 4), r ≠ 3 →
      (H1.getD i 0) r c = (H2.getD i 0) r c) :
    pqs_from_transforms H1 = pqs_from_transforms H2 := by
  apply List.ext_getElem
  · unfold pqs_from_transforms
    rw [List.length_map, List.length_map, hlen]
  · intro i hi1 hi2
    have hl1 : i < H1.length := by
      have hx := hi1
      unfold pqs_from_transforms at hx
      rwa [List.length_map] at hx
    have hl2 : i < H2.length := hlen ▸ hl1
    rw [← getD_eq_getElem_of_lt _ i hi1 0, ← getD_eq_getElem_of_lt _ i hi2 0]
    rw [pqs_from_transforms_getD H1 i hl1, pqs_from_transforms_getD H2 i hl2]
    have hblock : (fun a b : Fin 3 => (H1.getD i 0) a.castSucc b.castSucc)
        = fun a b : Fin 3 => (H2.getD i 0) a.castSucc b.castSucc := by
      funext a b
      refine hagree i hl1 a.castSucc b.castSucc ?_
      intro hc
      have hv := congrArg Fin.val hc
      have hcs : (a.castSucc : Fin 4).val = a.val := rfl
      have h3 : ((3 : Fin 4) : ℕ) = 3 := rfl
      rw [hcs, h3] at hv
      have halt := a.isLt
      omega
    rw [hagree i hl1 0 3 (by decide), hagree i hl1 1 3 (by decide),
      hagree i hl1 2 3 (by decide), hblock]

/-- C10 witness: two single-matrix batches that agree on rows 0–2 and differ
in the bottom row produce the same pose batch. -/
theorem pqs_from_transforms_ignores_bottom_row_witness :
    pqs_from_transforms
        [fun r c : Fin 4 => if r = 3 then (0 : ℝ) else if r = c then 1 else 0] =
      pqs_from_transforms
        [fun r c : Fin 4 => if r = 3 then (37 : ℝ) else if r = c then 1 else 0] :=
  pqs_from_transforms_ignores_bottom_row _ _
    (by rw [List.length_singleton, List.length_singleton])
    (by
      intro i hi r c hr
      rcases i with _ | n
      · simp only [List.getD_cons_zero]
        rw [if_neg hr, if_neg hr]
      · simp at hi)
